import Mathlib

/-!
Verification of the partition retrieval-request orchestrator of the
amazon-s3-glacier-refreezer solution. The file gives a shallow embedding of
the request-archives lambda module (handler, readAthenaPartition,
readResultsCSV, getPartitionMaxProcessedFileNumber, filenameExists,
calculateNumberOfChunks) and proves theorems about its behaviour.

External collaborators are modelled explicitly: the DynamoDB status table
is a list of records and its queries are evaluated over that list, the
successive Athena getQueryExecution responses and the byte stream of the
S3 results object are supplied as event lists, and the deterministic
filename parsing rule of lib/filenameparser.js together with the Glacier
initiateJob call are parameters of the invocation environment.
-/

namespace Refreezer

/-- The fixed chunk size from the source: 4 * 1024 * 1024 * 1024 bytes. -/
def CHUNK_SIZE : Nat := 4 * 1024 * 1024 * 1024

/-- Translation of calculateNumberOfChunks for non-negative sizes: floor
division by CHUNK_SIZE, incremented when the remainder is non-zero. -/
def calculateNumberOfChunks (sizeInBytes : Nat) : Nat :=
  let numberOfChunks := sizeInBytes / CHUNK_SIZE
  if sizeInBytes % CHUNK_SIZE ≠ 0 then numberOfChunks + 1 else numberOfChunks

/-- The same function on arbitrary integers, with JavaScript semantics for
integral doubles: Math.floor of the real quotient is floor division
(Int.fdiv), and the JavaScript % operator is the truncated remainder
(Int.tmod). The source performs no input validation and has no throw. -/
def calculateNumberOfChunksInt (sizeInBytes : Int) : Int :=
  let numberOfChunks := Int.fdiv sizeInBytes CHUNK_SIZE
  if Int.tmod sizeInBytes CHUNK_SIZE ≠ 0 then numberOfChunks + 1 else numberOfChunks

/-- Result of the JavaScript parseInt on a CSV field: the value of the
leading run of decimal digits, or none (modelling NaN) when the field does
not start with a digit. -/
def parseIntJs (s : String) : Option Nat :=
  let digits := s.data.takeWhile Char.isDigit
  if digits.isEmpty then none
  else some (digits.foldl (fun acc c => acc * 10 + (c.toNat - 48)) 0)

/-- One raw CSV line of the Athena results object, all fields as strings,
with the header columns of the inventory query. -/
structure RawRow where
  row_num : String
  size : String
  archiveid : String
  sha256treehash : String
  archivedescription : String
  creationdate : String
deriving DecidableEq

/-- One parsed inventory row as produced by readResultsCSV: the numeric
fields carry the parseInt images (none models NaN), the rest are strings. -/
structure Row where
  row_num : Option Nat
  size : Option Nat
  archiveid : String
  sha256treehash : String
  archivedescription : String
  creationdate : String
deriving DecidableEq

/-- Parsing performed by the data event listener in readResultsCSV: the
size and row_num fields are coerced with parseInt. -/
def rowOfRaw (raw : RawRow) : Row :=
  { row_num := parseIntJs raw.row_num
    size := parseIntJs raw.size
    archiveid := raw.archiveid
    sha256treehash := raw.sha256treehash
    archivedescription := raw.archivedescription
    creationdate := raw.creationdate }

/-- Events emitted by the piped S3 read stream and csv parser backing the
results object. -/
inductive StreamEvent where
  | data (raw : RawRow)
  | endEvent
  | errorEvent (msg : String)
deriving DecidableEq

/-- Settlement of the readResultsCSV promise over a stream event list. The
executor installs only data and end listeners and only ever calls resolve,
from the end listener; there is no reject call and no error listener, so an
event list without an end event leaves the promise pending forever (none),
and an error event is simply not observed by the promise. -/
def readResultsCSV : List StreamEvent → List Row → Option (List Row)
  | [], _ => none
  | StreamEvent.data raw :: rest, acc => readResultsCSV rest (acc ++ [rowOfRaw raw])
  | StreamEvent.endEvent :: _, acc => some acc
  | StreamEvent.errorEvent _ :: rest, acc => readResultsCSV rest acc

/-- Athena query execution states as compared by readAthenaPartition. -/
inductive QueryState where
  | QUEUED
  | RUNNING
  | SUCCEEDED
  | FAILED
  | CANCELLED
deriving DecidableEq

/-- Polling loop of readAthenaPartition over the successive
getQueryExecution responses: a state outside QUEUED, RUNNING, SUCCEEDED
throws the Athena exception; SUCCEEDED ends the loop; otherwise the loop
sleeps and polls again. An exhausted response list models a query that
never reaches a decision: the loop is still running (none). -/
def pollLoop : List QueryState → Option (Except String Unit)
  | [] => none
  | s :: rest =>
    if s = QueryState.QUEUED ∨ s = QueryState.RUNNING ∨ s = QueryState.SUCCEEDED then
      if s = QueryState.SUCCEEDED then some (Except.ok ()) else pollLoop rest
    else some (Except.error "Athena exception")

/-- Translation of readAthenaPartition: the partition query is started
(queryId names the resulting execution), the loop polls until completion,
and the deterministic results key is returned. -/
def readAthenaPartition (queryId : String) (polls : List QueryState) :
    Option (Except String String) :=
  (pollLoop polls).map (fun r => r.map (fun _ => "results/" ++ queryId ++ ".csv"))

/-- One item of the DynamoDB status table, as written by the handler. A
persisted numeric attribute is always a genuine number because DynamoDB
rejects a NaN value, see marshallPutItem. -/
structure StatusRecord where
  aid : String
  jobId : String
  ifn : Nat
  pid : Nat
  sha : String
  sz : Nat
  cdt : String
  descr : String
  fname : String
  cc : Nat
  rc : Nat
deriving DecidableEq

/-- The DynamoDB query issued by getPartitionMaxProcessedFileNumber on the
max-file-index (hash key pid, range key ifn) with ScanIndexForward false
and Limit 1: it returns the matching record with the greatest ifn, whose
key is also the LastEvaluatedKey of the response. -/
def queryMaxFileIndex (store : List StatusRecord) (pid : Nat) : Option StatusRecord :=
  match store with
  | [] => none
  | r :: rest =>
    let m := queryMaxFileIndex rest pid
    if r.pid = pid then
      match m with
      | none => some r
      | some q => if q.ifn ≤ r.ifn then some r else some q
    else m

/-- Translation of getPartitionMaxProcessedFileNumber: 0 when the partition
has no record (Count is 0), otherwise the ifn attribute of the single
descending result. -/
def getPartitionMaxProcessedFileNumber (store : List StatusRecord) (pid : Nat) : Nat :=
  match queryMaxFileIndex store pid with
  | none => 0
  | some r => r.ifn

/-- Translation of filenameExists: the DynamoDB count query on the
name-index, true exactly when some record carries the name. -/
def filenameExists (store : List StatusRecord) (fname : String) : Bool :=
  store.any (fun r => r.fname == fname)

/-- Marshalling and putItem of one status record. DynamoDB rejects a NaN
numeric attribute with a validation error, so the write succeeds exactly
when the ifn, sz and cc values are genuine numbers. -/
def marshallPutItem (aid jobId : String) (ifn : Option Nat) (pid : Nat) (sha : String)
    (sz : Option Nat) (cdt descr fname : String) (cc : Option Nat) (rc : Nat) :
    Except String StatusRecord :=
  match ifn, sz, cc with
  | some i, some s, some c =>
    Except.ok
      { aid := aid, jobId := jobId, ifn := i, pid := pid, sha := sha, sz := s,
        cdt := cdt, descr := descr, fname := fname, cc := c, rc := rc }
  | _, _, _ => Except.error "ValidationException"

/-- The invocation payload: nextPartition is consumed, maxPartition only
logged. -/
structure Payload where
  nextPartition : Nat
  maxPartition : Nat
deriving DecidableEq

/-- External collaborators of one invocation: the deterministic filename
parsing rule of lib/filenameparser.js (outside the embedded module), the
Glacier initiateJob call giving the jobId for an archive, and the
moment().format() timestamp of the run. -/
structure Env where
  parseFileName : String → String → String
  initiateJob : String → String
  cdt : String

/-- Observable side effects of one invocation, in order. -/
inductive Effect where
  | initiateJob (aid : String)
  | putItem (rec : StatusRecord)
deriving DecidableEq

/-- Mutable state of the row loop: the in-memory processed names array, the
partitionMaxProcessedFileNumber variable, the status table contents, and
the trace of side effects so far. -/
structure LoopState where
  processed : List String
  cursor : Nat
  store : List StatusRecord
  effects : List Effect
deriving DecidableEq

/-- JavaScript comparison ifn <= cursor, which is false when ifn is NaN. -/
def jsLe (a : Option Nat) (b : Nat) : Bool :=
  match a with
  | none => false
  | some n => decide (n ≤ b)

/-- One iteration of the row loop of the handler: skip when ifn <=
partitionMaxProcessedFileNumber; otherwise derive the name, disambiguate it
with the creation date suffix on collision, submit the Glacier retrieval
job, compute the chunk count, and put the status record, the write failing
when a numeric field is NaN. On success the processed array, the cursor,
the table and the trace advance together. -/
def processRow (env : Env) (pid : Nat) (st : LoopState) (line : Row) :
    LoopState × Option String :=
  if jsLe line.row_num st.cursor then (st, none)
  else
    let fname0 := env.parseFileName line.archiveid line.archivedescription
    let fname :=
      if st.processed.contains fname0 || filenameExists st.store fname0 then
        fname0 ++ "-" ++ line.creationdate
      else fname0
    let jobId := env.initiateJob line.archiveid
    let st1 := { st with effects := st.effects ++ [Effect.initiateJob line.archiveid] }
    let cc := line.size.map calculateNumberOfChunks
    match marshallPutItem line.archiveid jobId line.row_num pid line.sha256treehash
        line.size env.cdt line.archivedescription fname cc 0 with
    | Except.error e => (st1, some e)
    | Except.ok rec =>
      ({ processed := st1.processed ++ [fname]
         cursor := rec.ifn
         store := st1.store ++ [rec]
         effects := st1.effects ++ [Effect.putItem rec] }, none)

/-- The row loop: rows are processed strictly in order, a thrown error
aborting the remainder of the loop. -/
def runRows (env : Env) (pid : Nat) : List Row → LoopState → LoopState × Option String
  | [], st => (st, none)
  | line :: rest, st =>
    match processRow env pid st line with
    | (st', none) => runRows env pid rest st'
    | (st', some e) => (st', some e)

/-- Loop state at the start of an invocation on partition pid over table
contents store0: empty processed array, cursor read from DynamoDB, no
effects yet. -/
def initState (store0 : List StatusRecord) (pid : Nat) : LoopState :=
  { processed := []
    cursor := getPartitionMaxProcessedFileNumber store0 pid
    store := store0
    effects := [] }

/-- The whole handler invocation. The inputs model the external world:
store0 is the status table at entry, polls the successive Athena poll
responses, events the stream of the results object named by the query. The
outcome pairs the final world state with none (the invocation never
settles), a thrown error, or the returned payload; the nextPartition field
is assigned only after the row loop has completed. -/
def handler (env : Env) (store0 : List StatusRecord) (queryId : String)
    (polls : List QueryState) (events : List StreamEvent) (payload : Payload) :
    LoopState × Option (Except String Payload) :=
  let pid := payload.nextPartition
  let st0 := initState store0 pid
  match readAthenaPartition queryId polls with
  | none => (st0, none)
  | some (Except.error e) => (st0, some (Except.error e))
  | some (Except.ok _) =>
    match readResultsCSV events [] with
    | none => (st0, none)
    | some lines =>
      match runRows env pid lines st0 with
      | (st, some e) => (st, some (Except.error e))
      | (st, none) =>
        (st, some (Except.ok
          { nextPartition := pid + 1, maxPartition := payload.maxPartition }))

/-! ## Theorems -/

/-- Ceiling division of naturals, following the words of the spec. -/
def specCeilDiv (s c : Nat) : Nat := (s + c - 1) / c

theorem calculateNumberOfChunks_eq (s : Nat) :
    calculateNumberOfChunks s =
      if s % CHUNK_SIZE ≠ 0 then s / CHUNK_SIZE + 1 else s / CHUNK_SIZE := rfl

theorem CHUNK_SIZE_eq : CHUNK_SIZE = 4294967296 := rfl

/-- C1: for every non-negative integer size, calculateNumberOfChunks equals
the ceiling of size divided by CHUNK_SIZE; in particular it is 0 at size 0,
exactly size / CHUNK_SIZE on an exact multiple (no extra chunk), and the
floor plus one otherwise. -/
theorem calculateNumberOfChunks_ceil (s : Nat) :
    calculateNumberOfChunks s = specCeilDiv s CHUNK_SIZE ∧
    calculateNumberOfChunks 0 = 0 ∧
    (s % CHUNK_SIZE = 0 → calculateNumberOfChunks s = s / CHUNK_SIZE) ∧
    (s % CHUNK_SIZE ≠ 0 → calculateNumberOfChunks s = s / CHUNK_SIZE + 1) := by
  have h0 : calculateNumberOfChunks 0 = 0 := rfl
  rw [calculateNumberOfChunks_eq]
  unfold specCeilDiv
  rw [CHUNK_SIZE_eq]
  refine ⟨?_, h0, ?_, ?_⟩ <;> split_ifs <;> omega

/-- Witness for calculateNumberOfChunks_ceil at the concrete size 5. -/
theorem calculateNumberOfChunks_ceil_witness :
    (5 : Nat) % CHUNK_SIZE ≠ 0 ∧ calculateNumberOfChunks 5 = 5 / CHUNK_SIZE + 1 :=
  ⟨by decide, (calculateNumberOfChunks_ceil 5).2.2.2 (by decide)⟩

/-- C8 counterexample: at the negative size -1 calculateNumberOfChunks does
not fail; it returns the chunk count 0, so negative input is not rejected. -/
theorem calculateNumberOfChunksInt_neg_one_returns :
    calculateNumberOfChunksInt (-1) = 0 := by decide

/-- C8 amended: calculateNumberOfChunks does not reject negative input; the
translation is a total function with no failure mode, and on every negative
size it returns a non-positive chunk count. -/
theorem calculateNumberOfChunksInt_neg_total (s : Int) (h : s < 0) :
    calculateNumberOfChunksInt s ≤ 0 := by
  have hC : (0 : Int) < (CHUNK_SIZE : Int) := by rw [CHUNK_SIZE_eq]; norm_num
  have hfd : Int.fdiv s CHUNK_SIZE ≤ -1 := by
    by_contra hc
    push_neg at hc
    have h1 : 0 ≤ Int.fdiv s (CHUNK_SIZE : Int) := by omega
    have h2 := Int.fmod_nonneg' s hC
    have h3 := Int.fdiv_add_fmod s (CHUNK_SIZE : Int)
    nlinarith
  show (if Int.tmod s CHUNK_SIZE ≠ 0 then Int.fdiv s CHUNK_SIZE + 1
        else Int.fdiv s CHUNK_SIZE) ≤ 0
  split_ifs <;> omega

/-- Witness for calculateNumberOfChunksInt_neg_total at the size -5. -/
theorem calculateNumberOfChunksInt_neg_total_witness :
    (-5 : Int) < 0 ∧ calculateNumberOfChunksInt (-5) ≤ 0 :=
  ⟨by decide, calculateNumberOfChunksInt_neg_total (-5) (by decide)⟩

theorem queryMaxFileIndex_none_iff (store : List StatusRecord) (pid : Nat) :
    queryMaxFileIndex store pid = none ↔ ∀ r ∈ store, r.pid ≠ pid := by
  induction store with
  | nil => simp [queryMaxFileIndex]
  | cons r rest ih =>
    by_cases hr : r.pid = pid
    · constructor
      · intro h
        exfalso
        simp only [queryMaxFileIndex, hr, if_true] at h
        cases hm : queryMaxFileIndex rest pid <;> rw [hm] at h <;> dsimp only at h
        · exact Option.noConfusion h
        · split_ifs at h
      · intro h
        exact absurd hr (h r (List.mem_cons_self r rest))
    · simp only [queryMaxFileIndex, hr, if_false]
      rw [ih]
      constructor
      · intro h r' hr'
        rcases List.mem_cons.mp hr' with h1 | h1
        · rw [h1]; exact hr
        · exact h r' h1
      · intro h r' hr'
        exact h r' (List.mem_cons_of_mem r hr')

theorem queryMaxFileIndex_some_spec (store : List StatusRecord) (pid : Nat)
    (q : StatusRecord) (h : queryMaxFileIndex store pid = some q) :
    q ∈ store ∧ q.pid = pid ∧ ∀ r ∈ store, r.pid = pid → r.ifn ≤ q.ifn := by
  induction store generalizing q with
  | nil => simp [queryMaxFileIndex] at h
  | cons r rest ih =>
    by_cases hr : r.pid = pid
    · simp only [queryMaxFileIndex, hr, if_true] at h
      cases hm : queryMaxFileIndex rest pid <;> rw [hm] at h <;> dsimp only at h
      · have hq : q = r := by simpa using h.symm
        subst hq
        refine ⟨List.mem_cons_self q rest, hr, ?_⟩
        intro r' hr' hpid'
        rcases List.mem_cons.mp hr' with h1 | h1
        · rw [h1]
        · exact absurd hpid' ((queryMaxFileIndex_none_iff rest pid).mp hm r' h1)
      · rename_i m
        have hms := ih m hm
        split_ifs at h with hle
        · have hq : q = r := by simpa using h.symm
          subst hq
          refine ⟨List.mem_cons_self q rest, hr, ?_⟩
          intro r' hr' hpid'
          rcases List.mem_cons.mp hr' with h1 | h1
          · rw [h1]
          · exact le_trans (hms.2.2 r' h1 hpid') hle
        · have hq : q = m := by simpa using h.symm
          subst hq
          refine ⟨List.mem_cons_of_mem r hms.1, hms.2.1, ?_⟩
          intro r' hr' hpid'
          rcases List.mem_cons.mp hr' with h1 | h1
          · rw [h1]; omega
          · exact hms.2.2 r' h1 hpid'
    · simp only [queryMaxFileIndex, hr, if_false] at h
      have hms := ih q h
      refine ⟨List.mem_cons_of_mem r hms.1, hms.2.1, ?_⟩
      intro r' hr' hpid'
      rcases List.mem_cons.mp hr' with h1 | h1
      · exact absurd hpid' (by rw [h1]; exact hr)
      · exact hms.2.2 r' h1 hpid'

/-- C4: getPartitionMaxProcessedFileNumber returns a non-negative integer
without raising an error: it is 0 when the partition has no status record,
and otherwise the highest ifn among the status records of the partition,
obtained from the descending limit-1 lookup on the max-file-index. -/
theorem getPartitionMaxProcessedFileNumber_spec (store : List StatusRecord) (pid : Nat) :
    ((∀ r ∈ store, r.pid ≠ pid) → getPartitionMaxProcessedFileNumber store pid = 0) ∧
    (∀ r ∈ store, r.pid = pid → r.ifn ≤ getPartitionMaxProcessedFileNumber store pid) ∧
    ((∃ r ∈ store, r.pid = pid) →
      ∃ r ∈ store, r.pid = pid ∧ getPartitionMaxProcessedFileNumber store pid = r.ifn) := by
  unfold getPartitionMaxProcessedFileNumber
  cases hq : queryMaxFileIndex store pid
  · refine ⟨fun _ => rfl, ?_, ?_⟩
    · intro r hr hpid
      exact absurd hpid ((queryMaxFileIndex_none_iff store pid).mp hq r hr)
    · intro ⟨r, hr, hpid⟩
      exact absurd hpid ((queryMaxFileIndex_none_iff store pid).mp hq r hr)
  · rename_i q
    have hs := queryMaxFileIndex_some_spec store pid q hq
    refine ⟨?_, ?_, ?_⟩
    · intro h
      exact absurd hs.2.1 (h q hs.1)
    · intro r hr hpid
      exact hs.2.2 r hr hpid
    · intro _
      exact ⟨q, hs.1, hs.2.1, rfl⟩

/-- Sample status record used by concrete witnesses. -/
def sampleRecord (p i : Nat) (name : String) : StatusRecord :=
  { aid := "aid-" ++ toString i, jobId := "job", ifn := i, pid := p, sha := "sha",
    sz := 100, cdt := "2020-01-01", descr := "d", fname := name, cc := 1, rc := 0 }

/-- Witness for getPartitionMaxProcessedFileNumber_spec on a three-record
table: partition 7 holds rows 2 and 5, partition 3 holds row 9. -/
theorem getPartitionMaxProcessedFileNumber_spec_witness :
    (∃ r ∈ [sampleRecord 7 2 "a", sampleRecord 7 5 "b", sampleRecord 3 9 "c"],
        r.pid = 7) ∧
    (∃ r ∈ [sampleRecord 7 2 "a", sampleRecord 7 5 "b", sampleRecord 3 9 "c"],
        r.pid = 7 ∧
        getPartitionMaxProcessedFileNumber
          [sampleRecord 7 2 "a", sampleRecord 7 5 "b", sampleRecord 3 9 "c"] 7 = r.ifn) :=
  ⟨by decide,
    (getPartitionMaxProcessedFileNumber_spec
      [sampleRecord 7 2 "a", sampleRecord 7 5 "b", sampleRecord 3 9 "c"] 7).2.2
      (by decide)⟩

/-- Derived description of the name the handler assigns to a row in a given
loop state: the parsed base name, suffixed with the creation date when it
collides with the in-memory processed array or with an existing record. -/
def resolveName (env : Env) (st : LoopState) (line : Row) : String :=
  if st.processed.contains (env.parseFileName line.archiveid line.archivedescription)
      || filenameExists st.store
        (env.parseFileName line.archiveid line.archivedescription) then
    env.parseFileName line.archiveid line.archivedescription
      ++ "-" ++ line.creationdate
  else env.parseFileName line.archiveid line.archivedescription

/-- Derived description of the status record the handler writes for a
processed row with parsed row number n and parsed size s. -/
def writtenRecord (env : Env) (pid : Nat) (st : LoopState) (line : Row)
    (n s : Nat) : StatusRecord :=
  { aid := line.archiveid
    jobId := env.initiateJob line.archiveid
    ifn := n
    pid := pid
    sha := line.sha256treehash
    sz := s
    cdt := env.cdt
    descr := line.archivedescription
    fname := resolveName env st line
    cc := calculateNumberOfChunks s
    rc := 0 }

theorem processRow_skip (env : Env) (pid : Nat) (st : LoopState) (line : Row)
    (h : jsLe line.row_num st.cursor = true) :
    processRow env pid st line = (st, none) := by
  simp [processRow, h]

theorem processRow_char (env : Env) (pid : Nat) (st : LoopState) (line : Row) :
    (jsLe line.row_num st.cursor = true ∧ processRow env pid st line = (st, none)) ∨
    (jsLe line.row_num st.cursor = false ∧
      (line.row_num = none ∨ line.size = none) ∧
      processRow env pid st line =
        ({ st with effects := st.effects ++ [Effect.initiateJob line.archiveid] },
         some "ValidationException")) ∨
    (∃ n s, jsLe line.row_num st.cursor = false ∧ line.row_num = some n ∧
      line.size = some s ∧ st.cursor < n ∧
      processRow env pid st line =
        ({ processed := st.processed ++ [resolveName env st line]
           cursor := n
           store := st.store ++ [writtenRecord env pid st line n s]
           effects := st.effects ++ [Effect.initiateJob line.archiveid,
                        Effect.putItem (writtenRecord env pid st line n s)] },
         none)) := by
  by_cases hskip : jsLe line.row_num st.cursor = true
  · exact Or.inl ⟨hskip, by simp [processRow, hskip]⟩
  · right
    rw [Bool.not_eq_true] at hskip
    cases hrn : line.row_num with
    | none =>
      left
      rw [hrn] at hskip
      refine ⟨hskip, Or.inl rfl, ?_⟩
      simp [processRow, hskip, hrn, marshallPutItem]
    | some n =>
      rw [hrn] at hskip
      have hn : st.cursor < n := by
        have h := hskip
        simp only [jsLe, decide_eq_false_iff_not] at h
        omega
      cases hsz : line.size with
      | none =>
        left
        refine ⟨hskip, Or.inr rfl, ?_⟩
        simp [processRow, hskip, hrn, hsz, marshallPutItem]
      | some s =>
        right
        refine ⟨n, s, hskip, rfl, rfl, hn, ?_⟩
        simp only [processRow, hskip, Bool.false_eq_true, if_false, hrn, hsz,
          Option.map_some', marshallPutItem, resolveName, writtenRecord,
          filenameExists]
        simp [List.append_assoc]

theorem runRows_cons (env : Env) (pid : Nat) (line : Row) (rest : List Row)
    (st : LoopState) :
    runRows env pid (line :: rest) st =
      match processRow env pid st line with
      | (st', none) => runRows env pid rest st'
      | (st', some e) => (st', some e) := rfl

theorem processRow_cursor_mono (env : Env) (pid : Nat) (st : LoopState) (line : Row) :
    st.cursor ≤ (processRow env pid st line).1.cursor := by
  rcases processRow_char env pid st line with ⟨_, h⟩ | ⟨_, _, h⟩ | ⟨n, s, _, _, _, hn, h⟩
  · rw [h]
  · rw [h]
  · rw [h]
    simp
    omega

theorem runRows_cursor_mono (env : Env) (pid : Nat) (rows : List Row) (st : LoopState) :
    st.cursor ≤ (runRows env pid rows st).1.cursor := by
  induction rows generalizing st with
  | nil => exact le_refl _
  | cons line rest ih =>
    rw [runRows_cons]
    have h1 := processRow_cursor_mono env pid st line
    cases hp : processRow env pid st line with
    | mk st' e =>
      rw [hp] at h1
      cases e with
      | none => exact le_trans h1 (ih st')
      | some e => exact h1

theorem runRows_append (env : Env) (pid : Nat) (as bs : List Row) (st : LoopState) :
    runRows env pid (as ++ bs) st =
      match runRows env pid as st with
      | (st', none) => runRows env pid bs st'
      | (st', some e) => (st', some e) := by
  induction as generalizing st with
  | nil => rfl
  | cons line rest ih =>
    rw [List.cons_append, runRows_cons, runRows_cons]
    cases hp : processRow env pid st line with
    | mk st' e =>
      cases e with
      | none => exact ih st'
      | some e => rfl

/-- C2: a row whose parsed row sequence number is at most the cursor read
at the start of the invocation (getPartitionMaxProcessedFileNumber)
contributes no side effect at all, wherever it occurs in the stream:
removing it changes neither the loop state (Glacier calls, table writes and
effect trace included) nor the outcome of the invocation. -/
theorem skip_row_no_side_effects (env : Env) (store0 : List StatusRecord) (pid : Nat)
    (pre post : List Row) (line : Row) (n : Nat)
    (h1 : line.row_num = some n)
    (h2 : n ≤ getPartitionMaxProcessedFileNumber store0 pid) :
    runRows env pid (pre ++ line :: post) (initState store0 pid) =
      runRows env pid (pre ++ post) (initState store0 pid) := by
  rw [runRows_append, runRows_append]
  cases hpre : runRows env pid pre (initState store0 pid) with
  | mk stPre err =>
    cases err with
    | some e => rfl
    | none =>
      dsimp only
      have hc : (initState store0 pid).cursor ≤ stPre.cursor := by
        have h := runRows_cursor_mono env pid pre (initState store0 pid)
        rw [hpre] at h
        exact h
      have hc0 : (initState store0 pid).cursor =
          getPartitionMaxProcessedFileNumber store0 pid := rfl
      have hskip : jsLe line.row_num stPre.cursor = true := by
        rw [h1]
        simp only [jsLe, decide_eq_true_eq]
        omega
      rw [runRows_cons, processRow_skip env pid stPre line hskip]

/-- Environment used by the concrete witnesses: the name rule returns the
archive description, job ids derive from the archive id. -/
def sampleEnv : Env :=
  { parseFileName := fun _ descr => descr
    initiateJob := fun aid => "job-" ++ aid
    cdt := "2021-02-03T04:05:06Z" }

/-- Sample parsed inventory row used by the concrete witnesses. -/
def sampleRow (k : Nat) (name date : String) : Row :=
  { row_num := some k, size := some 7, archiveid := "arch-" ++ toString k,
    sha256treehash := "sha", archivedescription := name, creationdate := date }

/-- Witness for skip_row_no_side_effects: with row 5 of partition 7 already
recorded, the stale row 4 is dropped without any effect. -/
theorem skip_row_no_side_effects_witness :
    (sampleRow 4 "x" "T").row_num = some 4 ∧
    4 ≤ getPartitionMaxProcessedFileNumber [sampleRecord 7 5 "old"] 7 ∧
    runRows sampleEnv 7 ([] ++ sampleRow 4 "x" "T" :: [sampleRow 9 "y" "T"])
        (initState [sampleRecord 7 5 "old"] 7) =
      runRows sampleEnv 7 ([] ++ [sampleRow 9 "y" "T"])
        (initState [sampleRecord 7 5 "old"] 7) :=
  ⟨rfl, by decide,
    skip_row_no_side_effects sampleEnv [sampleRecord 7 5 "old"] 7 []
      [sampleRow 9 "y" "T"] (sampleRow 4 "x" "T") 4 rfl (by decide)⟩

theorem pollLoop_error (polls1 polls2 : List QueryState) (bad : QueryState)
    (hpre : ∀ s ∈ polls1, s = QueryState.QUEUED ∨ s = QueryState.RUNNING)
    (hbad : bad = QueryState.FAILED ∨ bad = QueryState.CANCELLED) :
    pollLoop (polls1 ++ bad :: polls2) = some (Except.error "Athena exception") := by
  induction polls1 with
  | nil =>
    rcases hbad with h | h <;> subst h <;> simp [pollLoop]
  | cons s rest ih =>
    have hrest : ∀ t ∈ rest, t = QueryState.QUEUED ∨ t = QueryState.RUNNING :=
      fun t ht => hpre t (List.mem_cons_of_mem s ht)
    rcases hpre s (List.mem_cons_self s rest) with h | h <;> subst h <;>
      simpa [pollLoop] using ih hrest

/-- C3: an Athena execution that reaches a non-success terminal state
(FAILED or CANCELLED) after any number of QUEUED or RUNNING polls makes the
whole invocation fail with the propagated error: no status record is
written, no Glacier call happens (the returned state is the initial one,
whose table is store0 and whose trace is empty), and no payload is
returned, so nextPartition is never assigned. -/
theorem query_failure_aborts (env : Env) (store0 : List StatusRecord) (queryId : String)
    (polls1 polls2 : List QueryState) (bad : QueryState) (events : List StreamEvent)
    (payload : Payload)
    (hpre : ∀ s ∈ polls1, s = QueryState.QUEUED ∨ s = QueryState.RUNNING)
    (hbad : bad = QueryState.FAILED ∨ bad = QueryState.CANCELLED) :
    handler env store0 queryId (polls1 ++ bad :: polls2) events payload =
      (initState store0 payload.nextPartition,
        some (Except.error "Athena exception")) ∧
    (initState store0 payload.nextPartition).store = store0 ∧
    (initState store0 payload.nextPartition).effects = [] := by
  refine ⟨?_, rfl, rfl⟩
  unfold handler readAthenaPartition
  rw [pollLoop_error polls1 polls2 bad hpre hbad]
  rfl

/-- Witness for query_failure_aborts: two benign polls followed by FAILED. -/
theorem query_failure_aborts_witness :
    handler sampleEnv [] "q1"
      ([QueryState.QUEUED, QueryState.RUNNING] ++ QueryState.FAILED :: []) []
      { nextPartition := 7, maxPartition := 9 } =
      (initState [] 7, some (Except.error "Athena exception")) :=
  (query_failure_aborts sampleEnv [] "q1" [QueryState.QUEUED, QueryState.RUNNING] []
    QueryState.FAILED [] { nextPartition := 7, maxPartition := 9 }
    (by decide) (by decide)).1

/-- C5: a successful invocation returns the payload with nextPartition set
to the processed partition plus one and every other field, in particular
maxPartition, unchanged. -/
theorem handler_success_payload (env : Env) (store0 : List StatusRecord)
    (queryId : String) (polls : List QueryState) (events : List StreamEvent)
    (payload : Payload) (st : LoopState) (p : Payload)
    (h : handler env store0 queryId polls events payload = (st, some (Except.ok p))) :
    p.nextPartition = payload.nextPartition + 1 ∧
    p.maxPartition = payload.maxPartition := by
  unfold handler at h
  dsimp only at h
  cases hra : readAthenaPartition queryId polls with
  | none => rw [hra] at h; simp at h
  | some r =>
    rw [hra] at h
    cases r with
    | error e => simp at h
    | ok key =>
      dsimp only at h
      cases hcsv : readResultsCSV events [] with
      | none => rw [hcsv] at h; simp at h
      | some lines =>
        rw [hcsv] at h
        dsimp only at h
        cases hrun : runRows env payload.nextPartition lines
            (initState store0 payload.nextPartition) with
        | mk st2 err =>
          rw [hrun] at h
          cases err with
          | some e => simp at h
          | none =>
            dsimp only at h
            simp only [Prod.mk.injEq, Option.some.injEq, Except.ok.injEq] at h
            rw [← h.2]
            exact ⟨rfl, rfl⟩

/-- Witness for handler_success_payload: an empty partition read ends with
the payload advanced from 7 to 8 and maxPartition 9 preserved. -/
theorem handler_success_payload_witness :
    handler sampleEnv [] "q" [QueryState.SUCCEEDED] [StreamEvent.endEvent]
        { nextPartition := 7, maxPartition := 9 } =
      (initState [] 7, some (Except.ok { nextPartition := 8, maxPartition := 9 })) ∧
    ({ nextPartition := 8, maxPartition := 9 } : Payload).nextPartition = 7 + 1 ∧
    ({ nextPartition := 8, maxPartition := 9 } : Payload).maxPartition = 9 :=
  ⟨rfl,
    handler_success_payload sampleEnv [] "q" [QueryState.SUCCEEDED]
      [StreamEvent.endEvent] { nextPartition := 7, maxPartition := 9 }
      (initState [] 7) { nextPartition := 8, maxPartition := 9 } rfl⟩

theorem processRow_delta (env : Env) (pid : Nat) (st : LoopState) (line : Row) :
    ∃ ds : List StatusRecord,
      (processRow env pid st line).1.store = st.store ++ ds ∧
      (processRow env pid st line).1.processed =
        st.processed ++ ds.map (fun r => r.fname) := by
  rcases processRow_char env pid st line with ⟨_, h⟩ | ⟨_, _, h⟩ | ⟨n, s, _, _, _, _, h⟩
  · exact ⟨[], by rw [h]; simp, by rw [h]; simp⟩
  · exact ⟨[], by rw [h]; simp, by rw [h]; simp⟩
  · exact ⟨[writtenRecord env pid st line n s], by rw [h], by rw [h]; rfl⟩

theorem runRows_delta (env : Env) (pid : Nat) (rows : List Row) (st : LoopState) :
    ∃ ds : List StatusRecord,
      (runRows env pid rows st).1.store = st.store ++ ds ∧
      (runRows env pid rows st).1.processed =
        st.processed ++ ds.map (fun r => r.fname) := by
  induction rows generalizing st with
  | nil => exact ⟨[], by simp [runRows], by simp [runRows]⟩
  | cons line rest ih =>
    rw [runRows_cons]
    obtain ⟨d1, hs1, hp1⟩ := processRow_delta env pid st line
    cases hp : processRow env pid st line with
    | mk st1 e =>
      rw [hp] at hs1 hp1
      cases e with
      | some e => exact ⟨d1, hs1, hp1⟩
      | none =>
        obtain ⟨d2, hs2, hp2⟩ := ih st1
        refine ⟨d1 ++ d2, ?_, ?_⟩
        · rw [hs2, hs1, List.append_assoc]
        · rw [hp2, hp1]
          simp [List.append_assoc]

/-- C6: when a row is actually processed, the recorded resolvedName is the
parsed base name with the creation date suffix appended exactly when the
base name is already in the in-memory processed array (which holds the
names of the records this same invocation appended to the table, as the
first two conjuncts state) or a persisted record with that name exists;
otherwise the base name is recorded unchanged. -/
theorem resolved_name_rule (env : Env) (store0 : List StatusRecord) (pid : Nat)
    (pre : List Row) (line : Row) (stPre : LoopState) (n s : Nat)
    (hpre : runRows env pid pre (initState store0 pid) = (stPre, none))
    (hn : line.row_num = some n) (hs : line.size = some s)
    (hproc : stPre.cursor < n) :
    ∃ (newRecs : List StatusRecord) (rec : StatusRecord),
      stPre.store = store0 ++ newRecs ∧
      stPre.processed = newRecs.map (fun r => r.fname) ∧
      (processRow env pid stPre line).1.store = stPre.store ++ [rec] ∧
      rec.fname =
        (if stPre.processed.contains
              (env.parseFileName line.archiveid line.archivedescription)
            || filenameExists stPre.store
              (env.parseFileName line.archiveid line.archivedescription) then
          env.parseFileName line.archiveid line.archivedescription
            ++ "-" ++ line.creationdate
        else env.parseFileName line.archiveid line.archivedescription) := by
  obtain ⟨ds, hstore, hproc2⟩ := runRows_delta env pid pre (initState store0 pid)
  rw [hpre] at hstore hproc2
  rcases processRow_char env pid stPre line with ⟨h1, _⟩ | ⟨_, hmal, _⟩ |
      ⟨n2, s2, _, hn2, hs2, _, h⟩
  · rw [hn] at h1
    simp only [jsLe, decide_eq_true_eq] at h1
    omega
  · rcases hmal with hm | hm
    · rw [hn] at hm; exact Option.noConfusion hm
    · rw [hs] at hm; exact Option.noConfusion hm
  · refine ⟨ds, writtenRecord env pid stPre line n2 s2, ?_, ?_, ?_, ?_⟩
    · simpa using hstore
    · simpa using hproc2
    · rw [h]
    · rfl

/-- Witness for resolved_name_rule: the second row with base name photo and
creation date T is recorded as photo-T. -/
theorem resolved_name_rule_witness :
    (sampleRow 2 "photo" "T").row_num = some 2 ∧
    (sampleRow 2 "photo" "T").size = some 7 ∧
    (runRows sampleEnv 7 [sampleRow 1 "photo" "T"] (initState [] 7)).1.cursor < 2 ∧
    (∃ (newRecs : List StatusRecord) (rec : StatusRecord),
      (runRows sampleEnv 7 [sampleRow 1 "photo" "T"] (initState [] 7)).1.store =
        [] ++ newRecs ∧
      (runRows sampleEnv 7 [sampleRow 1 "photo" "T"] (initState [] 7)).1.processed =
        newRecs.map (fun r => r.fname) ∧
      (processRow sampleEnv 7 (runRows sampleEnv 7 [sampleRow 1 "photo" "T"]
          (initState [] 7)).1 (sampleRow 2 "photo" "T")).1.store =
        (runRows sampleEnv 7 [sampleRow 1 "photo" "T"] (initState [] 7)).1.store
          ++ [rec] ∧
      rec.fname =
        (if (runRows sampleEnv 7 [sampleRow 1 "photo" "T"]
              (initState [] 7)).1.processed.contains
              (sampleEnv.parseFileName (sampleRow 2 "photo" "T").archiveid
                (sampleRow 2 "photo" "T").archivedescription)
            || filenameExists (runRows sampleEnv 7 [sampleRow 1 "photo" "T"]
              (initState [] 7)).1.store
              (sampleEnv.parseFileName (sampleRow 2 "photo" "T").archiveid
                (sampleRow 2 "photo" "T").archivedescription) then
          sampleEnv.parseFileName (sampleRow 2 "photo" "T").archiveid
              (sampleRow 2 "photo" "T").archivedescription
            ++ "-" ++ (sampleRow 2 "photo" "T").creationdate
        else sampleEnv.parseFileName (sampleRow 2 "photo" "T").archiveid
          (sampleRow 2 "photo" "T").archivedescription)) :=
  ⟨rfl, rfl, by decide,
    resolved_name_rule sampleEnv [] 7 [sampleRow 1 "photo" "T"]
      (sampleRow 2 "photo" "T")
      (runRows sampleEnv 7 [sampleRow 1 "photo" "T"] (initState [] 7)).1 2 7
      rfl rfl rfl (by decide)⟩

theorem filenameExists_false_iff (store : List StatusRecord) (f : String) :
    filenameExists store f = false ↔ f ∉ store.map (fun r => r.fname) := by
  simp [filenameExists, List.any_eq_false, List.mem_map]

/-- C7 counterexample: in one sequential invocation over an empty table,
three rows sharing the base name photo and the creation date T yield the
resolvedNames photo, photo-T and photo-T: when the third record is written
its resolvedName equals that of the already existing second record. -/
theorem resolved_name_duplicate_cex :
    ((runRows sampleEnv 7 [sampleRow 1 "photo" "T", sampleRow 2 "photo" "T",
        sampleRow 3 "photo" "T"] (initState [] 7)).1.store.map (fun r => r.fname)) =
      ["photo", "photo-T", "photo-T"] ∧
    ¬ ((runRows sampleEnv 7 [sampleRow 1 "photo" "T", sampleRow 2 "photo" "T",
        sampleRow 3 "photo" "T"] (initState [] 7)).1.store.map
          (fun r => r.fname)).Nodup := by
  constructor
  · rfl
  · decide

/-- C7 amended: at the moment each new status record is written, its
resolvedName differs from the resolvedName of every record already in the
table (records persisted before the invocation and records written earlier
in the same invocation alike), unless the creation date disambiguation
suffix fired, in which case the suffixed name may coincide with an existing
one. -/
theorem resolved_name_fresh_unless_suffixed (env : Env) (pid : Nat) (st : LoopState)
    (line : Row) (n s : Nat)
    (hn : line.row_num = some n) (hs : line.size = some s) (hproc : st.cursor < n) :
    ∃ rec, (processRow env pid st line).1.store = st.store ++ [rec] ∧
      (rec.fname ∉ st.store.map (fun r => r.fname) ∨
       rec.fname = env.parseFileName line.archiveid line.archivedescription
         ++ "-" ++ line.creationdate) := by
  rcases processRow_char env pid st line with ⟨h1, _⟩ | ⟨_, hmal, _⟩ |
      ⟨n2, s2, _, hn2, hs2, _, h⟩
  · rw [hn] at h1
    simp only [jsLe, decide_eq_true_eq] at h1
    omega
  · rcases hmal with hm | hm
    · rw [hn] at hm; exact Option.noConfusion hm
    · rw [hs] at hm; exact Option.noConfusion hm
  · refine ⟨writtenRecord env pid st line n2 s2, by rw [h], ?_⟩
    show (resolveName env st line ∉ st.store.map (fun r => r.fname)) ∨
      resolveName env st line = env.parseFileName line.archiveid
        line.archivedescription ++ "-" ++ line.creationdate
    by_cases hguard : (st.processed.contains
        (env.parseFileName line.archiveid line.archivedescription)
      || filenameExists st.store
        (env.parseFileName line.archiveid line.archivedescription)) = true
    · right
      unfold resolveName
      rw [if_pos hguard]
    · left
      rw [Bool.not_eq_true] at hguard
      have hfe : filenameExists st.store
          (env.parseFileName line.archiveid line.archivedescription) = false :=
        (Bool.or_eq_false_iff.mp hguard).2
      have hname : resolveName env st line =
          env.parseFileName line.archiveid line.archivedescription := by
        unfold resolveName
        rw [if_neg (by rw [hguard]; exact Bool.false_ne_true)]
      rw [hname]
      exact (filenameExists_false_iff st.store _).mp hfe

/-- Witness for resolved_name_fresh_unless_suffixed: the first photo row
over an empty table is written with a fresh un-suffixed name. -/
theorem resolved_name_fresh_unless_suffixed_witness :
    (sampleRow 1 "photo" "T").row_num = some 1 ∧
    (sampleRow 1 "photo" "T").size = some 7 ∧
    (initState [] 7).cursor < 1 ∧
    (∃ rec, (processRow sampleEnv 7 (initState [] 7) (sampleRow 1 "photo" "T")).1.store =
        (initState [] 7).store ++ [rec] ∧
      (rec.fname ∉ (initState [] 7).store.map (fun r => r.fname) ∨
       rec.fname = sampleEnv.parseFileName (sampleRow 1 "photo" "T").archiveid
           (sampleRow 1 "photo" "T").archivedescription
         ++ "-" ++ (sampleRow 1 "photo" "T").creationdate)) :=
  ⟨rfl, rfl, by decide,
    resolved_name_fresh_unless_suffixed sampleEnv 7 (initState [] 7)
      (sampleRow 1 "photo" "T") 1 7 rfl rfl (by decide)⟩

/-- Raw CSV line with an unparseable size field, used against C9. -/
def rawMalformedSize : RawRow :=
  { row_num := "3", size := "garbage", archiveid := "a3", sha256treehash := "h3",
    archivedescription := "d3", creationdate := "T" }

/-- C9 counterexample: a malformed row is not always fatal. With row 5 of
partition 7 already recorded, a row whose size field does not parse but
whose row number 3 is at or below the cursor is silently skipped, and the
invocation succeeds. -/
theorem malformed_row_not_always_fatal_cex :
    parseIntJs rawMalformedSize.size = none ∧
    handler sampleEnv [sampleRecord 7 5 "old"] "q" [QueryState.SUCCEEDED]
        [StreamEvent.data rawMalformedSize, StreamEvent.endEvent]
        { nextPartition := 7, maxPartition := 9 } =
      (initState [sampleRecord 7 5 "old"] 7,
        some (Except.ok { nextPartition := 8, maxPartition := 9 })) := by
  exact ⟨rfl, rfl⟩

/-- C9 amended: a malformed inventory row that the invocation actually
reaches and does not skip (its row number is NaN, or parses above the
cursor) aborts the invocation with an error at that row, writing no status
record derived from the malformed value (only the Glacier submission for
the row has happened); a malformed size field on a row skipped by the
cursor check goes unnoticed. -/
theorem malformed_processed_row_aborts (env : Env) (store0 : List StatusRecord)
    (pid : Nat) (pre post : List Row) (line : Row) (stPre : LoopState)
    (hpre : runRows env pid pre (initState store0 pid) = (stPre, none))
    (hmal : line.row_num = none ∨ line.size = none)
    (hproc : jsLe line.row_num stPre.cursor = false) :
    ∃ e, runRows env pid (pre ++ line :: post) (initState store0 pid) =
      ({ stPre with effects := stPre.effects ++ [Effect.initiateJob line.archiveid] },
        some e) := by
  rw [runRows_append, hpre]
  dsimp only
  rw [runRows_cons]
  rcases processRow_char env pid stPre line with ⟨h1, _⟩ | ⟨_, _, h⟩ |
      ⟨n2, s2, _, hn2, hs2, _, _⟩
  · rw [hproc] at h1
    exact absurd h1 (by simp)
  · rw [h]
    exact ⟨"ValidationException", rfl⟩
  · rcases hmal with hm | hm
    · rw [hm] at hn2; exact Option.noConfusion hn2
    · rw [hm] at hs2; exact Option.noConfusion hs2

/-- Raw CSV line with an unparseable row number, used by the witness. -/
def rawMalformedRowNum : RawRow :=
  { row_num := "x", size := "17", archiveid := "a9", sha256treehash := "h9",
    archivedescription := "d9", creationdate := "T" }

/-- Witness for malformed_processed_row_aborts: the NaN row number passes
the skip check and the write is rejected, failing the invocation. -/
theorem malformed_processed_row_aborts_witness :
    (rowOfRaw rawMalformedRowNum).row_num = none ∧
    jsLe (rowOfRaw rawMalformedRowNum).row_num (initState [] 7).cursor = false ∧
    (∃ e, runRows sampleEnv 7 ([] ++ rowOfRaw rawMalformedRowNum :: [])
        (initState [] 7) =
      ({ initState [] 7 with effects := (initState [] 7).effects
          ++ [Effect.initiateJob (rowOfRaw rawMalformedRowNum).archiveid] },
        some e)) :=
  ⟨rfl, rfl,
    malformed_processed_row_aborts sampleEnv [] 7 [] [] (rowOfRaw rawMalformedRowNum)
      (initState [] 7) rfl (Or.inl rfl) rfl⟩

/-- Spec-side projection of a stream event to the parsed row it carries. -/
def dataRowOf : StreamEvent → Option Row
  | StreamEvent.data raw => some (rowOfRaw raw)
  | _ => none

theorem readResultsCSV_acc (events : List StreamEvent) (acc : List Row) :
    readResultsCSV events acc =
      (if StreamEvent.endEvent ∈ events then
        some (acc ++ (events.takeWhile
          (fun e => !(e == StreamEvent.endEvent))).filterMap dataRowOf)
      else none) := by
  induction events generalizing acc with
  | nil => simp [readResultsCSV]
  | cons e rest ih =>
    cases e with
    | data raw =>
      rw [show readResultsCSV (StreamEvent.data raw :: rest) acc =
        readResultsCSV rest (acc ++ [rowOfRaw raw]) from rfl, ih]
      by_cases hmem : StreamEvent.endEvent ∈ rest
      · simp [hmem, List.takeWhile_cons, dataRowOf]
      · simp [hmem, List.takeWhile_cons]
    | endEvent =>
      simp [readResultsCSV, List.takeWhile_cons]
    | errorEvent msg =>
      rw [show readResultsCSV (StreamEvent.errorEvent msg :: rest) acc =
        readResultsCSV rest acc from rfl, ih]
      by_cases hmem : StreamEvent.endEvent ∈ rest
      · simp [hmem, List.takeWhile_cons, dataRowOf]
      · simp [hmem, List.takeWhile_cons]

/-- C10: the readResultsCSV promise never produces an error result; it is
settled exactly by an end event, resolving with the rows parsed from the
data events seen before the first end event, and an event stream with no
end event (for example one that only reports read errors) leaves the
promise, and hence the invocation, pending forever. -/
theorem readResultsCSV_resolves_only_on_end (events : List StreamEvent) :
    readResultsCSV events [] =
      (if StreamEvent.endEvent ∈ events then
        some ((events.takeWhile
          (fun e => !(e == StreamEvent.endEvent))).filterMap dataRowOf)
      else none) := by
  rw [readResultsCSV_acc]
  simp

end Refreezer
